import Mathlib

/-!
Shallow embedding of the event ingestion, deduplication and
subscription-synchronization pipeline of the `ton-tracker` repository:
the webhook receiver (`internal/webhook/server.go`), the rate-limited
TonAPI client (same file, `tonapi` package part), the subscription
synchronizer (`Manager.sync`), the backfill seeder (`seedAllWallets` in
`main`), and the storage operations they use
(`internal/notifier/notifier.go`, `storage` package part).

Conventions: Go `int64` is modelled as `Int`; time instants and durations
are in milliseconds as `Nat`; Go strings are Lean `String`s (Go `len` and
slicing are byte-based, Lean `String.length` is character-based; the two
agree on ASCII data such as raw TON addresses and event ids); the
`processed_events` table is a `Finset (Int × String)` of
(wallet_id, event_id) rows, matching its composite primary key.
-/

namespace TonTracker

/-- storage.Wallet (internal/storage/models.go). `MinAmountTON *float64`
is modelled as an optional rational, `CreatedAt time.Time` as unix
seconds. -/
structure Wallet where
  ID : Int
  UserID : Int
  Name : String
  AddressRaw : String
  AddressDisplay : String
  MinAmountTON : Option ℚ
  CreatedAt : Int
deriving DecidableEq

/-- tonapi.Account (internal/tonapi/types.go). -/
structure Account where
  Address : String
  Name : String
  IsScam : Bool
  IsWallet : Bool
deriving DecidableEq

/-- tonapi.TonTransfer (internal/tonapi/types.go). Amount is nanoTON. -/
structure TonTransfer where
  Sender : Account
  Recipient : Account
  Amount : Int
  Comment : String
deriving DecidableEq

/-- tonapi.JettonInfo (internal/tonapi/types.go). -/
structure JettonInfo where
  Address : String
  Name : String
  Symbol : String
  Decimals : Int
  Image : String
deriving DecidableEq

/-- tonapi.JettonSwap (internal/tonapi/types.go). -/
structure JettonSwap where
  Dex : String
  TonIn : Int
  TonOut : Int
  AmountIn : String
  AmountOut : String
  JettonMasterIn : Option JettonInfo
  JettonMasterOut : Option JettonInfo
  Router : Account
deriving DecidableEq

/-- tonapi.Action (internal/tonapi/types.go). The Go field `Type` is named
`Type'` here because `Type` is a Lean keyword. -/
structure Action where
  Type' : String
  Status : String
  TonTransfer : Option TonTracker.TonTransfer
  JettonSwap : Option TonTracker.JettonSwap
deriving DecidableEq

/-- tonapi.Event (internal/tonapi/types.go). -/
structure Event where
  EventID : String
  Timestamp : Int
  Actions : List Action
  IsScam : Bool
deriving DecidableEq

/-- tonapi.WebhookPayload (internal/tonapi/types.go): the JSON body TonAPI
posts to the webhook endpoint. `Event *Event` is an optional inline event. -/
structure WebhookPayload where
  EventType : String
  AccountID : String
  TxHash : String
  Lt : Int
  Event : Option Event
deriving DecidableEq

/-- Go string slicing `s[:n]` (as used on `payload.AccountID[:10]` in
server.go). It is defined only when `n ≤ len(s)`; otherwise the Go runtime
panics with a slice-bounds-out-of-range error, modelled as `none`. -/
def goSlicePrefix (s : String) (n : Nat) : Option String :=
  if n ≤ s.length then some (String.mk (s.toList.take n)) else none

/-- `truncate` (webhook/server.go): total truncation helper the code uses
for `tx_hash` in the same log call that slices `account_id` unguarded. -/
def truncate (s : String) (n : Nat) : String :=
  if s.length ≤ n then s else String.mk (s.toList.take n) ++ "..."

/-- Result of `Storage.MarkEventProcessed` (notifier.go, storage part):
`INSERT OR IGNORE INTO processed_events` followed by `SELECT changes()`.
Sequential semantics: insert-if-absent on the (wallet_id, event_id) set,
reporting `true` exactly when the row was newly inserted. -/
def MarkEventProcessed (ledger : Finset (Int × String)) (walletID : Int)
    (eventID : String) : Bool × Finset (Int × String) :=
  (if (walletID, eventID) ∈ ledger then false else true,
   insert (walletID, eventID) ledger)

/-- The per-wallet loop of `Server.processTransaction` (server.go lines
149-173): for each wallet call `MarkEventProcessed`; only wallets for which
it reports new are dispatched to the handler. Returns the dispatched
(wallet_id, event_id) pairs and the final ledger. -/
def processWallets (eventID : String) :
    List Wallet → Finset (Int × String) → List (Int × String) × Finset (Int × String)
  | [], ledger => ([], ledger)
  | w :: rest, ledger =>
    let r := MarkEventProcessed ledger w.ID eventID
    let o := processWallets eventID rest r.2
    if r.1 then ((w.ID, eventID) :: o.1, o.2) else o

/-- Outcome of one run of `Server.processTransaction`: either a runtime
panic, or normal completion with the list of handler dispatches and the
resulting processed-event ledger. -/
inductive ProcessOutcome
  | panicked
  | done (dispatches : List (Int × String)) (ledger : Finset (Int × String))
deriving DecidableEq

/-- The event-resolution step of `Server.processTransaction` (server.go
lines 122-136): take the inline event from the payload if present,
otherwise fetch it by transaction hash when one is given.
`fetchEventByHash` models `tonAPI.GetEventByHash` (`none` = error). -/
def resolveEvent (payload : WebhookPayload)
    (fetchEventByHash : String → Option Event) : Option Event :=
  match payload.Event with
  | some e => some e
  | none =>
    if payload.TxHash ≠ "" then fetchEventByHash payload.TxHash else none

/-- `Server.processTransaction` (server.go lines 109-174). `wallets` is
the result of `Storage.GetWalletsByRaw(payload.AccountID)` (storage reads
are parameters of the model; the storage-error path only logs and
returns). When no wallet matches, the debug log evaluates
`payload.AccountID[:10]` (line 118), which panics whenever the account id
is shorter than 10. The event is taken inline from the payload or fetched
by hash via `resolveEvent`; a missing event or an empty event id aborts
with no state change. -/
def processTransaction (payload : WebhookPayload) (wallets : List Wallet)
    (fetchEventByHash : String → Option Event)
    (ledger : Finset (Int × String)) : ProcessOutcome :=
  if wallets.isEmpty then
    match goSlicePrefix payload.AccountID 10 with
    | none => .panicked
    | some _ => .done [] ledger
  else
    match resolveEvent payload fetchEventByHash with
    | none => .done [] ledger
    | some event =>
      if event.EventID = "" then .done [] ledger
      else
        let r := processWallets event.EventID wallets ledger
        .done r.1 r.2

/-- Inbound HTTP body as the webhook handler sees it: either JSON that
fails to decode into `WebhookPayload`, or a decoded payload. -/
inductive Body
  | undecodable
  | decoded (p : WebhookPayload)
deriving DecidableEq

/-- Outcome of `Server.handleWebhook`: a runtime panic, or an HTTP status
together with the payload handed to the asynchronous
`go s.processTransaction` goroutine (`none` when no processing is
spawned). -/
inductive HandlerOutcome
  | panicked
  | response (status : Nat) (spawned : Option WebhookPayload)
deriving DecidableEq

/-- `Server.handleWebhook` (server.go lines 71-107): non-POST is answered
405; undecodable JSON 400; `mempool_msg` / `new_contract` event types and
empty `account_id` are acknowledged with 200 and discarded. Otherwise the
debug log at line 98 evaluates `payload.AccountID[:10]+"..."`, which
panics when the account id has fewer than 10 characters; when it is long
enough the handler spawns `processTransaction` and answers 200. -/
def handleWebhook (method : String) (body : Body) : HandlerOutcome :=
  if method ≠ "POST" then .response 405 none
  else
    match body with
    | .undecodable => .response 400 none
    | .decoded p =>
      if p.EventType = "mempool_msg" ∨ p.EventType = "new_contract" then
        .response 200 none
      else if p.AccountID = "" then
        .response 200 none
      else
        match goSlicePrefix p.AccountID 10 with
        | none => .panicked
        | some _ => .response 200 (some p)

/-- The minimum request interval configured in `tonapi.NewClient`:
`minDelay: 250 * time.Millisecond`, in milliseconds. -/
def minDelay : Nat := 250

/-- `Client.throttle` (tonapi client, lines 223-232), inside the mutex:
given the stored `lastCall` timestamp and the instant `entry` at which the
caller acquired the mutex, the earliest instant at which the caller can
leave the critical section. The code computes `elapsed = entry - lastCall`
and sleeps `minDelay - elapsed` when `elapsed < minDelay`; `time.Sleep`
sleeps at least the requested duration, so the caller wakes no earlier
than `lastCall + minDelay` in that branch and no earlier than `entry`
otherwise. -/
def throttleWake (lastCall entry : Nat) : Nat :=
  if entry - lastCall < minDelay then lastCall + minDelay else entry

/-- A possible timed execution of a sequence of `Client.doRequest` calls
through the shared throttle. The index is the current `lastCall`
timestamp; each trace element is the pair (start, finish) of one request,
where `start` is the instant `throttle` stores into `lastCall` just
before the HTTP request is issued. The intermediate `entry` is when the
caller acquires the throttle mutex: mutex ordering guarantees
`lastCall ≤ entry` (the previous holder wrote `lastCall` before
releasing), but the mutex is released before the HTTP request itself is
performed, so `entry` is not required to be after the previous request's
`finish`. `start` is any instant no earlier than the throttle wake-up
instant, and `finish` is any instant no earlier than `start`. -/
inductive DoRequestTrace : Nat → List (Nat × Nat) → Prop
  | nil (last : Nat) : DoRequestTrace last []
  | cons (last entry start finish : Nat) (rest : List (Nat × Nat)) :
      last ≤ entry →
      throttleWake last entry ≤ start →
      start ≤ finish →
      DoRequestTrace start rest →
      DoRequestTrace last ((start, finish) :: rest)

/-- Holds when every two consecutive requests of the trace have start
instants at least `d` apart. -/
def startsSpacedBy (d : Nat) : List (Nat × Nat) → Bool
  | (s1, _) :: (s2, f2) :: rest =>
    decide (s1 + d ≤ s2) && startsSpacedBy d ((s2, f2) :: rest)
  | _ => true

/-- Holds when each request starts at least `d` after the previous
request finished (the reading of the throttle in which the interval is
measured from when the previous call returned control). -/
def finishToStartSpacedBy (d : Nat) : List (Nat × Nat) → Bool
  | (_, f1) :: (s2, f2) :: rest =>
    decide (f1 + d ≤ s2) && finishToStartSpacedBy d ((s2, f2) :: rest)
  | _ => true

/-- The `needed` set of `Manager.sync` (webhook manager, lines 110-114):
the set of raw addresses across all tracked wallet records. -/
def neededOf (wallets : List Wallet) : Finset String :=
  (wallets.map Wallet.AddressRaw).toFinset

/-- Result of one `Manager.sync` tick: the computed diffs and the
in-memory `subscribed` cache after the tick. -/
structure SyncOutcome where
  toAdd : Finset String
  toRemove : Finset String
  subscribed : Finset String
deriving DecidableEq

/-- `Manager.sync` (webhook manager, lines 96-156), the tick body that
runs once the webhook id is known (`webhookID == 0` returns before any of
this; the tick-long mutex makes ticks sequential). `wallets` is the
`Storage.GetAllWallets` result; `subOk` / `unsubOk` model whether the
`SubscribeAccounts` / `UnsubscribeAccounts` bulk calls return nil. On a
failed or skipped call the cache is left untouched; on success the added
addresses are inserted into the cache, respectively the removed ones
deleted from it. -/
def sync (subscribed : Finset String) (wallets : List Wallet)
    (subOk unsubOk : Bool) : SyncOutcome :=
  let needed := neededOf wallets
  let toAdd := needed.filter (fun a => a ∉ subscribed)
  let toRemove := subscribed.filter (fun a => a ∉ needed)
  let s1 := if toAdd = ∅ then subscribed
    else if subOk then subscribed ∪ toAdd else subscribed
  let s2 := if toRemove = ∅ then s1
    else if unsubOk then s1 \ toRemove else s1
  ⟨toAdd, toRemove, s2⟩

/-- Result of the backfill seeder: the final processed-event ledger, the
handler dispatches it performed (none, ever), and the `GetEvents` calls it
issued as (address, limit) pairs. -/
structure SeedOutcome where
  ledger : Finset (Int × String)
  dispatches : List (Int × String)
  calls : List (String × Nat)
deriving DecidableEq

/-- The per-wallet loop of `seedAllWallets` (main package, lines 130-145):
for each wallet fetch its 5 most recent events; on a fetch error log and
continue with the remaining wallets; otherwise mark every event with a
non-empty id as processed via `Storage.MarkEventProcessed`. No handler is
ever invoked. `getEvents` models `tonAPI.GetEvents` (`Except.error` = a
failed fetch). -/
def seedWalletsLoop (getEvents : String → Nat → Except String (List Event)) :
    List Wallet → Finset (Int × String) → SeedOutcome
  | [], ledger => ⟨ledger, [], []⟩
  | w :: rest, ledger =>
    match getEvents w.AddressRaw 5 with
    | .error _ =>
      let o := seedWalletsLoop getEvents rest ledger
      ⟨o.ledger, o.dispatches, (w.AddressRaw, 5) :: o.calls⟩
    | .ok events =>
      let ledger2 := events.foldl
        (fun l ev =>
          if ev.EventID ≠ "" then (MarkEventProcessed l w.ID ev.EventID).2
          else l)
        ledger
      let o := seedWalletsLoop getEvents rest ledger2
      ⟨o.ledger, o.dispatches, (w.AddressRaw, 5) :: o.calls⟩

/-- `seedAllWallets` (main package, lines 115-148): `wallets` is the
`Storage.GetAllWallets` result (the storage-error path only logs and
returns the ledger unchanged). An empty wallet list returns early. -/
def seedAllWallets (wallets : List Wallet)
    (getEvents : String → Nat → Except String (List Event))
    (ledger : Finset (Int × String)) : SeedOutcome :=
  if wallets.isEmpty then ⟨ledger, [], []⟩
  else seedWalletsLoop getEvents wallets ledger

/-- The storage state the wallet-lifecycle claims need: the sqlite
`wallets` table (with its `AUTOINCREMENT` id counter, which never reuses
ids) and the `processed_events` table. -/
structure StorageState where
  nextId : Int
  wallets : List Wallet
  processed : Finset (Int × String)
deriving DecidableEq

/-- `Storage.RemoveWallet` (notifier.go, storage part, lines 567-580):
`DELETE FROM wallets WHERE user_id = ? AND id = ?` followed
unconditionally by
`DELETE FROM processed_events WHERE wallet_id = ?`. -/
def RemoveWallet (st : StorageState) (userID walletID : Int) : StorageState :=
  ⟨st.nextId,
   st.wallets.filter (fun w => !(w.UserID == userID && w.ID == walletID)),
   st.processed.filter (fun e => e.1 ≠ walletID)⟩

/-- `Storage.AddWallet` (notifier.go, storage part): counts the user's
wallets, refuses with `ErrLimitReached` at the limit, otherwise inserts a
new row whose id is the next auto-increment value. -/
def AddWallet (st : StorageState) (userID : Int)
    (name addressRaw addressDisplay : String) (maxWallets : Nat)
    (now : Int) : Except String (Wallet × StorageState) :=
  let count := (st.wallets.filter (fun w => w.UserID == userID)).length
  if maxWallets ≤ count then .error "wallet limit reached"
  else
    let w : Wallet := ⟨st.nextId, userID, name, addressRaw, addressDisplay,
                       none, now⟩
    .ok (w, ⟨st.nextId + 1, st.wallets ++ [w], st.processed⟩)

/-- A sequence of `Storage.MarkEventProcessed` calls applied in order,
pairing each call with its reported wasNew result. -/
def runMarks : List (Int × String) → Finset (Int × String) →
    List ((Int × String) × Bool)
  | [], _ => []
  | c :: rest, ledger =>
    let r := MarkEventProcessed ledger c.1 c.2
    (c, r.1) :: runMarks rest r.2

/-- How many calls on the pair `p` in a `runMarks` result reported
wasNew = true. -/
def newCount (p : Int × String) (rs : List ((Int × String) × Bool)) : Nat :=
  (rs.filter (fun r => decide (r.1 = p) && r.2)).length

/-- How many times the pair `p` occurs in a dispatch list. -/
def pairCount (p : Int × String) (d : List (Int × String)) : Nat :=
  (d.filter (fun q => decide (q = p))).length

/-- The asynchronous processing an inbound request triggers: when
`handleWebhook` spawned `go s.processTransaction(ctx, payload)`, run it
(`walletsByRaw` models `Storage.GetWalletsByRaw`); otherwise the ledger is
untouched and nothing is dispatched. -/
def runSpawned (o : HandlerOutcome) (walletsByRaw : String → List Wallet)
    (fetchEventByHash : String → Option Event)
    (ledger : Finset (Int × String)) :
    List (Int × String) × Finset (Int × String) :=
  match o with
  | .response _ (some p) =>
    match processTransaction p (walletsByRaw p.AccountID) fetchEventByHash
        ledger with
    | .done d l => (d, l)
    | .panicked => ([], ledger)
  | _ => ([], ledger)

/-- A concrete tracked wallet used to instantiate theorems on concrete
inputs. -/
def walletW : Wallet := ⟨1, 7, "w1", "0:abcdefghij", "UQabc", none, 0⟩

/-- A concrete inbound event used to instantiate theorems on concrete
inputs. -/
def eventW : Event := ⟨"evt1", 0, [], false⟩

/-- A concrete webhook payload carrying `eventW` inline for `walletW`'s
raw address. -/
def payloadW : WebhookPayload := ⟨"", "0:abcdefghij", "", 0, some eventW⟩

/-- A concrete `GetEvents` stub returning `eventW` for every address. -/
def getEventsW : String → Nat → Except String (List Event) :=
  fun _ _ => .ok [eventW]

/-- A concrete storage state with one wallet row and two processed-event
rows. -/
def storageW : StorageState :=
  ⟨3, [walletW], {((1 : Int), "a"), ((2 : Int), "b")}⟩

lemma throttleWake_lb (last entry : Nat) (h : last ≤ entry) :
    last + minDelay ≤ throttleWake last entry := by
  unfold throttleWake
  split
  · exact le_refl _
  · omega

lemma doRequestTrace_head_lb (last s f : Nat) (tr : List (Nat × Nat))
    (h : DoRequestTrace last ((s, f) :: tr)) : last + minDelay ≤ s := by
  cases h with
  | cons _ entry _ _ _ hle hwake _ _ =>
    exact le_trans (throttleWake_lb last entry hle) hwake

lemma filter_not_mem_eq_sdiff (s t : Finset String) :
    s.filter (fun a => a ∉ t) = s \ t :=
  (Finset.sdiff_eq_filter s t).symm

lemma mem_of_sdiff_eq_empty {s t : Finset String} (h : s \ t = ∅)
    {a : String} (ha : a ∈ s) : a ∈ t := by
  have := Finset.sdiff_eq_empty_iff_subset.mp h
  exact this ha

lemma sync_toAdd (subscribed : Finset String) (wallets : List Wallet)
    (subOk unsubOk : Bool) :
    (sync subscribed wallets subOk unsubOk).toAdd
      = neededOf wallets \ subscribed := by
  simp [sync, filter_not_mem_eq_sdiff]

lemma sync_toRemove (subscribed : Finset String) (wallets : List Wallet)
    (subOk unsubOk : Bool) :
    (sync subscribed wallets subOk unsubOk).toRemove
      = subscribed \ neededOf wallets := by
  simp [sync, filter_not_mem_eq_sdiff]

lemma sync_true_true_subscribed (subscribed : Finset String)
    (wallets : List Wallet) :
    (sync subscribed wallets true true).subscribed = neededOf wallets := by
  show (let needed := neededOf wallets
        let toAdd := needed.filter (fun a => a ∉ subscribed)
        let toRemove := subscribed.filter (fun a => a ∉ needed)
        let s1 := if toAdd = ∅ then subscribed
          else if (true : Bool) then subscribed ∪ toAdd else subscribed
        let s2 := if toRemove = ∅ then s1
          else if (true : Bool) then s1 \ toRemove else s1
        s2) = neededOf wallets
  simp only [filter_not_mem_eq_sdiff, if_true]
  set n := neededOf wallets with hn
  split_ifs with h1 h2 h3
  · exact Finset.Subset.antisymm (Finset.sdiff_eq_empty_iff_subset.mp h1)
      (Finset.sdiff_eq_empty_iff_subset.mp h2)
  · ext a
    simp only [Finset.mem_union, Finset.mem_sdiff]
    constructor
    · rintro (ha | ⟨ha, _⟩)
      · exact mem_of_sdiff_eq_empty h1 ha
      · exact ha
    · intro ha
      by_cases hs : a ∈ subscribed
      · exact Or.inl hs
      · exact Or.inr ⟨ha, hs⟩
  · ext a
    simp only [Finset.mem_sdiff]
    constructor
    · rintro ⟨ha, hna⟩
      by_contra hcontra
      exact hna ⟨ha, hcontra⟩
    · intro ha
      exact ⟨mem_of_sdiff_eq_empty h3 ha, fun hx => hx.2 ha⟩
  · ext a
    simp only [Finset.mem_sdiff, Finset.mem_union]
    constructor
    · rintro ⟨ha | ⟨ha, _⟩, hn2⟩
      · by_contra hcontra
        exact hn2 ⟨ha, hcontra⟩
      · exact ha
    · intro ha
      by_cases hs : a ∈ subscribed
      · exact ⟨Or.inl hs, fun hx => hx.2 ha⟩
      · exact ⟨Or.inr ⟨ha, hs⟩, fun hx => hx.2 ha⟩

lemma sync_failed_sub_mem (subscribed : Finset String) (wallets : List Wallet)
    (unsubOk : Bool) (a : String) (ha : a ∈ neededOf wallets) :
    (a ∈ (sync subscribed wallets false unsubOk).subscribed)
      ↔ a ∈ subscribed := by
  show a ∈ (let needed := neededOf wallets
        let toAdd := needed.filter (fun b => b ∉ subscribed)
        let toRemove := subscribed.filter (fun b => b ∉ needed)
        let s1 := if toAdd = ∅ then subscribed
          else if (false : Bool) then subscribed ∪ toAdd else subscribed
        let s2 := if toRemove = ∅ then s1
          else if unsubOk then s1 \ toRemove else s1
        s2) ↔ a ∈ subscribed
  simp only [filter_not_mem_eq_sdiff, Bool.false_eq_true, if_false, ite_self]
  split_ifs with h1 h2
  · exact Iff.rfl
  · simp only [Finset.mem_sdiff]
    constructor
    · exact fun hx => hx.1
    · intro hs
      exact ⟨hs, fun hx => hx.2 ha⟩
  · exact Iff.rfl

lemma sync_unsub_failed_superset (subscribed : Finset String)
    (wallets : List Wallet) (subOk : Bool) :
    subscribed ⊆ (sync subscribed wallets subOk false).subscribed := by
  intro a ha
  show a ∈ (let needed := neededOf wallets
        let toAdd := needed.filter (fun b => b ∉ subscribed)
        let toRemove := subscribed.filter (fun b => b ∉ needed)
        let s1 := if toAdd = ∅ then subscribed
          else if subOk then subscribed ∪ toAdd else subscribed
        let s2 := if toRemove = ∅ then s1
          else if (false : Bool) then s1 \ toRemove else s1
        s2)
  simp only [Bool.false_eq_true, if_false, ite_self]
  split_ifs
  · exact ha
  · exact Finset.mem_union_left _ ha
  · exact ha

lemma runMarks_newCount_zero (calls : List (Int × String))
    (ledger : Finset (Int × String)) (p : Int × String) (hp : p ∈ ledger) :
    newCount p (runMarks calls ledger) = 0 := by
  induction calls generalizing ledger with
  | nil => rfl
  | cons c rest ih =>
    simp only [runMarks, MarkEventProcessed, newCount, List.filter]
    have hins : p ∈ insert (c.1, c.2) ledger := Finset.mem_insert_of_mem hp
    by_cases hc : c = p
    · subst hc
      rw [if_pos (by rw [Prod.mk.eta]; exact hp)]
      simp only [Bool.and_false, decide_eq_true_eq]
      have := ih (insert (c.1, c.2) ledger) hins
      simpa [newCount] using this
    · have hd : (decide (c = p) && (if (c.1, c.2) ∈ ledger then false
          else true)) = false := by
        simp [hc]
      rw [hd]
      have := ih (insert (c.1, c.2) ledger) hins
      simpa [newCount] using this

lemma runMarks_newCount_le_one (calls : List (Int × String))
    (ledger : Finset (Int × String)) (p : Int × String) :
    newCount p (runMarks calls ledger) ≤ 1 := by
  induction calls generalizing ledger with
  | nil => exact Nat.zero_le 1
  | cons c rest ih =>
    simp only [runMarks, MarkEventProcessed, newCount, List.filter]
    by_cases hc : c = p
    · subst hc
      by_cases hl : c ∈ ledger
      · rw [if_pos (by rw [Prod.mk.eta]; exact hl)]
        simp only [Bool.and_false]
        have := ih (insert (c.1, c.2) ledger)
        simpa [newCount] using this
      · rw [if_neg (by rw [Prod.mk.eta]; exact hl)]
        simp only [Bool.and_true, decide_eq_true_eq, if_pos rfl]
        have h0 := runMarks_newCount_zero rest (insert (c.1, c.2) ledger) c
          (by rw [Prod.mk.eta]; exact Finset.mem_insert_self c ledger)
        simp only [newCount] at h0
        simp [List.filter, h0]
    · have hd : (decide (c = p) && (if (c.1, c.2) ∈ ledger then false
          else true)) = false := by
        simp [hc]
      rw [hd]
      have := ih (insert (c.1, c.2) ledger)
      simpa [newCount] using this
lemma processWallets_ledger_subset (eid : String) (ws : List Wallet)
    (ledger : Finset (Int × String)) :
    ledger ⊆ (processWallets eid ws ledger).2 := by
  induction ws generalizing ledger with
  | nil => exact Finset.Subset.refl _
  | cons w rest ih =>
    simp only [processWallets, MarkEventProcessed]
    have hstep : ledger ⊆ insert (w.ID, eid) ledger :=
      Finset.subset_insert _ _
    have htail := ih (insert (w.ID, eid) ledger)
    split
    · exact Finset.Subset.trans hstep htail
    · exact Finset.Subset.trans hstep htail

lemma processWallets_mem (eid : String) (ws : List Wallet)
    (ledger : Finset (Int × String)) (w : Wallet) (hw : w ∈ ws) :
    (w.ID, eid) ∈ (processWallets eid ws ledger).2 := by
  induction ws generalizing ledger with
  | nil => cases hw
  | cons v rest ih =>
    simp only [processWallets, MarkEventProcessed]
    rcases List.mem_cons.mp hw with hv | hv
    · subst hv
      have hin : (w.ID, eid) ∈ insert (w.ID, eid) ledger :=
        Finset.mem_insert_self _ _
      have := processWallets_ledger_subset eid rest
        (insert (w.ID, eid) ledger)
      split
      · exact this hin
      · exact this hin
    · have := ih (insert (v.ID, eid) ledger) hv
      split
      · exact this
      · exact this

lemma processWallets_all_marked (eid : String) (ws : List Wallet)
    (ledger : Finset (Int × String))
    (h : ∀ w ∈ ws, (w.ID, eid) ∈ ledger) :
    processWallets eid ws ledger = ([], ledger) := by
  induction ws generalizing ledger with
  | nil => rfl
  | cons w rest ih =>
    have hw : (w.ID, eid) ∈ ledger := h w (List.mem_cons_self w rest)
    have hins : insert (w.ID, eid) ledger = ledger :=
      Finset.insert_eq_self.mpr hw
    simp only [processWallets, MarkEventProcessed, if_pos hw, hins]
    simp only [Bool.false_eq_true, if_false]
    exact ih ledger (fun v hv => h v (List.mem_cons_of_mem w hv))

lemma pairCount_cons (p q : Int × String) (l : List (Int × String)) :
    pairCount p (q :: l) = (if q = p then 1 else 0) + pairCount p l := by
  by_cases h : q = p
  · simp [pairCount, List.filter, h, Nat.add_comm]
  · simp [pairCount, List.filter, h]

lemma processWallets_pairCount_zero (eid : String) (ws : List Wallet)
    (ledger : Finset (Int × String)) (p : Int × String) (hp : p ∈ ledger) :
    pairCount p (processWallets eid ws ledger).1 = 0 := by
  induction ws generalizing ledger with
  | nil => rfl
  | cons w rest ih =>
    simp only [processWallets, MarkEventProcessed]
    have hins : p ∈ insert (w.ID, eid) ledger := Finset.mem_insert_of_mem hp
    by_cases hmem : (w.ID, eid) ∈ ledger
    · rw [if_pos hmem]
      simp only [Bool.false_eq_true, if_false]
      exact ih (insert (w.ID, eid) ledger) hins
    · rw [if_neg hmem]
      simp only [if_true]
      have hne : (w.ID, eid) ≠ p := fun he => hmem (he ▸ hp)
      have := ih (insert (w.ID, eid) ledger) hins
      simpa [pairCount, List.filter, hne] using this

lemma processWallets_pairCount_le_one (eid : String) (ws : List Wallet)
    (ledger : Finset (Int × String)) (p : Int × String) :
    pairCount p (processWallets eid ws ledger).1 ≤ 1 := by
  induction ws generalizing ledger with
  | nil => exact Nat.zero_le 1
  | cons w rest ih =>
    simp only [processWallets, MarkEventProcessed]
    by_cases hmem : (w.ID, eid) ∈ ledger
    · rw [if_pos hmem]
      simp only [Bool.false_eq_true, if_false]
      exact ih (insert (w.ID, eid) ledger)
    · rw [if_neg hmem]
      simp only [if_true]
      by_cases hp : (w.ID, eid) = p
      · have h0 := processWallets_pairCount_zero eid rest
          (insert (w.ID, eid) ledger) p
          (hp ▸ Finset.mem_insert_self _ _)
        rw [pairCount_cons, if_pos hp, h0]
      · rw [pairCount_cons, if_neg hp]
        simpa using ih (insert (w.ID, eid) ledger)

lemma processTransaction_rerun (payload : WebhookPayload)
    (wallets : List Wallet) (fetch : String → Option Event)
    (ledger : Finset (Int × String)) (d : List (Int × String))
    (l : Finset (Int × String))
    (h : processTransaction payload wallets fetch ledger = .done d l) :
    processTransaction payload wallets fetch l = .done [] l := by
  unfold processTransaction at h ⊢
  by_cases hw : wallets.isEmpty
  · rw [if_pos hw] at h ⊢
    cases hsl : goSlicePrefix payload.AccountID 10 with
    | none =>
      rw [hsl] at h
      exact absurd h (by simp)
    | some s => rfl
  · rw [if_neg hw] at h ⊢
    cases hev : resolveEvent payload fetch with
    | none => rfl
    | some ev =>
      rw [hev] at h
      by_cases hid : ev.EventID = ""
      · simp only [if_pos hid]
      · simp only [if_neg hid] at h
        injection h with h1 h2
        subst h2
        have hall : ∀ w ∈ wallets,
            (w.ID, ev.EventID)
              ∈ (processWallets ev.EventID wallets ledger).2 :=
          fun w hw2 => processWallets_mem ev.EventID wallets ledger w hw2
        have hmark := processWallets_all_marked ev.EventID wallets
          (processWallets ev.EventID wallets ledger).2 hall
        simp only [if_neg hid, hmark]
lemma seedLoop_calls (g : String → Nat → Except String (List Event))
    (ws : List Wallet) (ledger : Finset (Int × String)) :
    (seedWalletsLoop g ws ledger).calls
      = ws.map (fun w => (w.AddressRaw, 5)) := by
  induction ws generalizing ledger with
  | nil => rfl
  | cons w rest ih =>
    simp only [seedWalletsLoop, List.map]
    cases g w.AddressRaw 5 with
    | error err => simpa using ih ledger
    | ok events => simpa using ih _

lemma seedLoop_dispatches (g : String → Nat → Except String (List Event))
    (ws : List Wallet) (ledger : Finset (Int × String)) :
    (seedWalletsLoop g ws ledger).dispatches = [] := by
  induction ws generalizing ledger with
  | nil => rfl
  | cons w rest ih =>
    simp only [seedWalletsLoop]
    cases g w.AddressRaw 5 with
    | error err => simpa using ih ledger
    | ok events => simpa using ih _

lemma seedFold_subset (wid : Int) (events : List Event)
    (ledger : Finset (Int × String)) :
    ledger ⊆ events.foldl
      (fun l ev => if ev.EventID ≠ "" then (MarkEventProcessed l wid ev.EventID).2
        else l) ledger := by
  induction events generalizing ledger with
  | nil => exact Finset.Subset.refl _
  | cons e es ih =>
    simp only [List.foldl]
    have hstep : ledger ⊆ (if e.EventID ≠ ""
        then (MarkEventProcessed ledger wid e.EventID).2 else ledger) := by
      split
      · exact Finset.subset_insert _ _
      · exact Finset.Subset.refl _
    exact hstep.trans (ih _)

lemma seedFold_mem (wid : Int) (events : List Event)
    (ledger : Finset (Int × String)) (e : Event) (he : e ∈ events)
    (hne : e.EventID ≠ "") :
    (wid, e.EventID) ∈ events.foldl
      (fun l ev => if ev.EventID ≠ "" then (MarkEventProcessed l wid ev.EventID).2
        else l) ledger := by
  induction events generalizing ledger with
  | nil => cases he
  | cons e2 es ih =>
    simp only [List.foldl]
    rcases List.mem_cons.mp he with h | h
    · subst h
      have hbase : (wid, e.EventID) ∈ (if e.EventID ≠ ""
          then (MarkEventProcessed ledger wid e.EventID).2 else ledger) := by
        rw [if_pos hne]
        exact Finset.mem_insert_self _ _
      exact seedFold_subset wid es _ hbase
    · exact ih _ h

lemma seedLoop_ledger_subset (g : String → Nat → Except String (List Event))
    (ws : List Wallet) (ledger : Finset (Int × String)) :
    ledger ⊆ (seedWalletsLoop g ws ledger).ledger := by
  induction ws generalizing ledger with
  | nil => exact Finset.Subset.refl _
  | cons w rest ih =>
    simp only [seedWalletsLoop]
    cases g w.AddressRaw 5 with
    | error err => simpa using ih ledger
    | ok events =>
      have h1 := seedFold_subset w.ID events ledger
      have h2 := ih (events.foldl
        (fun l ev => if ev.EventID ≠ "" then (MarkEventProcessed l w.ID ev.EventID).2
          else l) ledger)
      simpa using h1.trans h2

lemma seedLoop_mem (g : String → Nat → Except String (List Event))
    (ws : List Wallet) (ledger : Finset (Int × String)) (w : Wallet)
    (hw : w ∈ ws) (events : List Event)
    (hok : g w.AddressRaw 5 = .ok events) (e : Event) (he : e ∈ events)
    (hne : e.EventID ≠ "") :
    (w.ID, e.EventID) ∈ (seedWalletsLoop g ws ledger).ledger := by
  induction ws generalizing ledger with
  | nil => cases hw
  | cons v rest ih =>
    simp only [seedWalletsLoop]
    rcases List.mem_cons.mp hw with h | h
    · subst h
      rw [hok]
      have hbase := seedFold_mem w.ID events ledger e he hne
      have := seedLoop_ledger_subset g rest (events.foldl
        (fun l ev => if ev.EventID ≠ "" then (MarkEventProcessed l w.ID ev.EventID).2
          else l) ledger)
      simpa using this hbase
    · cases g v.AddressRaw 5 with
      | error err => simpa using ih ledger h
      | ok evs2 => simpa using ih _ h

/-- C1: for every (wallet, event-id) pair, across any number of deliveries
of the same webhook payload, MarkEventProcessed reports wasNew = true at
most once (any call sequence has at most one true result per pair), the
downstream handler is dispatched at most once for that pair within a
processing run, and a second processing of the same payload against the
ledger produced by the first completes with zero dispatches. -/
theorem markEventProcessed_at_most_once_and_replay_silent
    (calls : List (Int × String)) (ledger0 : Finset (Int × String))
    (p : Int × String) (eid : String) (ws : List Wallet)
    (payload : WebhookPayload) (wallets : List Wallet)
    (fetch : String → Option Event) (ledger : Finset (Int × String))
    (d : List (Int × String)) (l : Finset (Int × String))
    (h : processTransaction payload wallets fetch ledger = .done d l) :
    newCount p (runMarks calls ledger0) ≤ 1 ∧
    pairCount p (processWallets eid ws ledger0).1 ≤ 1 ∧
    processTransaction payload wallets fetch l = .done [] l :=
  ⟨runMarks_newCount_le_one calls ledger0 p,
   processWallets_pairCount_le_one eid ws ledger0 p,
   processTransaction_rerun payload wallets fetch ledger d l h⟩

theorem markEventProcessed_at_most_once_and_replay_silent_witness :
    newCount ((1 : Int), "evt1")
        (runMarks [((1 : Int), "evt1"), ((1 : Int), "evt1")] ∅) ≤ 1 ∧
    pairCount ((1 : Int), "evt1") (processWallets "evt1" [walletW] ∅).1 ≤ 1 ∧
    processTransaction payloadW [walletW] (fun _ => none)
        {((1 : Int), "evt1")} = .done [] {((1 : Int), "evt1")} :=
  markEventProcessed_at_most_once_and_replay_silent
    [((1 : Int), "evt1"), ((1 : Int), "evt1")] ∅ ((1 : Int), "evt1") "evt1"
    [walletW] payloadW [walletW] (fun _ => none) ∅ [((1 : Int), "evt1")]
    {((1 : Int), "evt1")} (by decide)

/-- C2 (refuting evaluation): a POST whose body is decodable JSON with a
non-empty account_id of fewer than 10 characters does not get a 200
response: handleWebhook evaluates `payload.AccountID[:10]` in its debug
log (server.go line 98) and panics before writing any status. -/
theorem handleWebhook_short_account_id_panics :
    handleWebhook "POST" (Body.decoded ⟨"", "abc", "", 0, none⟩)
      = HandlerOutcome.panicked := by decide

/-- C3 (refuting evaluation): processTransaction is not total: on a
payload whose non-empty account_id is shorter than 10 characters and
matches no wallet, the debug log at server.go line 118 slices
`payload.AccountID[:10]` and panics. -/
theorem processTransaction_short_account_id_panics :
    processTransaction ⟨"", "abc", "", 0, none⟩ [] (fun _ => none) ∅
      = ProcessOutcome.panicked := by decide

/-- C4: along any timed execution of doRequest calls through the shared
throttle — concurrent callers included, since the trace assumes only mutex
ordering — the starts of any two consecutive issued requests are at least
minDelay (250 ms) apart. -/
theorem doRequest_consecutive_starts_min_interval (last : Nat)
    (tr : List (Nat × Nat)) (h : DoRequestTrace last tr) :
    startsSpacedBy minDelay tr = true := by
  induction h with
  | nil => rfl
  | cons last entry start finish rest hle hwake hsf htail ih =>
    cases rest with
    | nil => rfl
    | cons hd tl =>
      obtain ⟨s2, f2⟩ := hd
      have hgap : start + minDelay ≤ s2 :=
        doRequestTrace_head_lb start s2 f2 tl htail
      simp [startsSpacedBy, hgap, ih]

theorem doRequest_consecutive_starts_min_interval_witness :
    startsSpacedBy minDelay [(250, 260), (500, 900)] = true :=
  doRequest_consecutive_starts_min_interval 0 [(250, 260), (500, 900)]
    (DoRequestTrace.cons 0 250 250 260 _ (by decide) (by decide) (by decide)
      (DoRequestTrace.cons 250 260 500 900 _ (by decide) (by decide)
        (by decide) (DoRequestTrace.nil 500)))

/-- C5: a sync tick computes toAdd = needed minus currentlySubscribed and
toRemove = currentlySubscribed minus needed; on the first tick (empty
cache) toAdd is everything needed and toRemove is empty; and after a tick
in which both bulk calls succeed the in-memory subscribed set equals
exactly the set of raw addresses of all tracked records in storage. -/
theorem sync_tick_computes_diffs_and_converges (subscribed : Finset String)
    (wallets : List Wallet) :
    (sync subscribed wallets true true).toAdd
        = neededOf wallets \ subscribed ∧
    (sync subscribed wallets true true).toRemove
        = subscribed \ neededOf wallets ∧
    (sync ∅ wallets true true).toAdd = neededOf wallets ∧
    (sync ∅ wallets true true).toRemove = ∅ ∧
    (sync subscribed wallets true true).subscribed = neededOf wallets := by
  refine ⟨sync_toAdd subscribed wallets true true,
    sync_toRemove subscribed wallets true true, ?_, ?_,
    sync_true_true_subscribed subscribed wallets⟩
  · rw [sync_toAdd]
    exact Finset.sdiff_empty
  · rw [sync_toRemove]
    exact Finset.empty_sdiff _

/-- C6: if the bulk-subscribe call of a tick fails, the cache is unchanged
by that call, so the next tick over the same storage set computes the same
toAdd; and if the bulk-unsubscribe call fails, no address is removed from
the cache. -/
theorem sync_bulk_call_failure_leaves_cache_unchanged
    (subscribed : Finset String) (wallets : List Wallet)
    (subOk unsubOk nextSubOk nextUnsubOk : Bool) :
    (sync (sync subscribed wallets false unsubOk).subscribed wallets
        nextSubOk nextUnsubOk).toAdd
      = (sync subscribed wallets false unsubOk).toAdd ∧
    subscribed ⊆ (sync subscribed wallets subOk false).subscribed := by
  constructor
  · rw [sync_toAdd, sync_toAdd]
    ext a
    simp only [Finset.mem_sdiff]
    constructor
    · rintro ⟨ha, hs⟩
      exact ⟨ha, fun hx =>
        hs ((sync_failed_sub_mem subscribed wallets unsubOk a ha).mpr hx)⟩
    · rintro ⟨ha, hs⟩
      exact ⟨ha, fun hx =>
        hs ((sync_failed_sub_mem subscribed wallets unsubOk a ha).mp hx)⟩
  · exact sync_unsub_failed_superset subscribed wallets subOk

theorem sync_bulk_call_failure_leaves_cache_unchanged_witness :
    (sync (sync {"0:x"} [walletW] false true).subscribed [walletW]
        true true).toAdd
      = (sync {"0:x"} [walletW] false true).toAdd ∧
    ({"0:x"} : Finset String) ⊆ (sync {"0:x"} [walletW] true false).subscribed :=
  sync_bulk_call_failure_leaves_cache_unchanged {"0:x"} [walletW]
    true true true true

/-- C7 (counterexample): the claim that the throttle guarantees at least
minDelay between the previous request's completion and the next request's
start is false: this valid doRequest trace has a first request running
from 300 to 2000 while the second starts at 550, only 250 ms after the
first STARTED and long before it finished (the mutex is released before
the HTTP request is issued and lastCall is written at the start of a
call, not at its return). -/
theorem throttle_interval_not_from_previous_return :
    DoRequestTrace 0 [(300, 2000), (550, 560)] ∧
    finishToStartSpacedBy minDelay [(300, 2000), (550, 560)] = false := by
  constructor
  · exact DoRequestTrace.cons 0 300 300 2000 _ (by decide) (by decide)
      (by decide)
      (DoRequestTrace.cons 300 310 550 560 _ (by decide) (by decide)
        (by decide) (DoRequestTrace.nil 550))
  · decide

/-- C7 (amended): before issuing a request the client blocks until at
least minDelay (250 ms) has elapsed since the previous call updated the
shared lastCall timestamp — that is, since the previous request STARTED,
not since it completed. -/
theorem throttle_interval_from_previous_start (last entry start : Nat)
    (h1 : last ≤ entry) (h2 : throttleWake last entry ≤ start) :
    last + minDelay ≤ start :=
  le_trans (throttleWake_lb last entry h1) h2

theorem throttle_interval_from_previous_start_witness :
    0 + minDelay ≤ 300 :=
  throttle_interval_from_previous_start 0 300 300 (by decide) (by decide)

/-- C8: a decodable POST payload whose event_type is mempool_msg or
new_contract, or whose account_id is empty, is acknowledged with 200 and
discarded: no processTransaction goroutine is spawned, so no storage
lookup, no ledger insert and no dispatch happens, and the ledger is left
unchanged. -/
theorem handleWebhook_filtered_payloads_not_processed (p : WebhookPayload)
    (walletsByRaw : String → List Wallet) (fetch : String → Option Event)
    (ledger : Finset (Int × String))
    (h : p.EventType = "mempool_msg" ∨ p.EventType = "new_contract"
      ∨ p.AccountID = "") :
    handleWebhook "POST" (Body.decoded p) = .response 200 none ∧
    runSpawned (handleWebhook "POST" (Body.decoded p)) walletsByRaw fetch
        ledger = ([], ledger) := by
  have h200 : handleWebhook "POST" (Body.decoded p) = .response 200 none := by
    rcases h with h | h | h
    · simp [handleWebhook, h]
    · simp [handleWebhook, h]
    · by_cases hf : p.EventType = "mempool_msg" ∨ p.EventType = "new_contract"
      · rcases hf with hf | hf
        · simp [handleWebhook, hf]
        · simp [handleWebhook, hf]
      · simp [handleWebhook, hf, h]
  refine ⟨h200, ?_⟩
  rw [h200]
  rfl

theorem handleWebhook_filtered_payloads_not_processed_witness :
    handleWebhook "POST" (Body.decoded ⟨"mempool_msg", "0:abc", "", 0, none⟩)
        = .response 200 none ∧
    runSpawned
        (handleWebhook "POST"
          (Body.decoded ⟨"mempool_msg", "0:abc", "", 0, none⟩))
        (fun _ => []) (fun _ => none) ∅ = ([], ∅) :=
  handleWebhook_filtered_payloads_not_processed
    ⟨"mempool_msg", "0:abc", "", 0, none⟩ (fun _ => []) (fun _ => none) ∅
    (Or.inl rfl)

/-- C9: the backfill seeder issues one GetEvents call with limit 5 for
every tracked address in storage order, never dispatches, only grows the
processed-event ledger, and for every wallet whose fetch succeeds inserts
every non-empty event id of the result keyed by that wallet id — also when
fetches for other (possibly earlier) wallets fail. -/
theorem seedAllWallets_seeds_ledger_without_dispatch (wallets : List Wallet)
    (getEvents : String → Nat → Except String (List Event))
    (ledger : Finset (Int × String)) :
    (seedAllWallets wallets getEvents ledger).calls
        = wallets.map (fun w => (w.AddressRaw, 5)) ∧
    (seedAllWallets wallets getEvents ledger).dispatches = [] ∧
    ledger ⊆ (seedAllWallets wallets getEvents ledger).ledger ∧
    ∀ w ∈ wallets, ∀ events, getEvents w.AddressRaw 5 = Except.ok events →
      ∀ e ∈ events, e.EventID ≠ "" →
        (w.ID, e.EventID) ∈ (seedAllWallets wallets getEvents ledger).ledger := by
  cases wallets with
  | nil =>
    exact ⟨rfl, rfl, Finset.Subset.refl _,
      fun w hw2 => absurd hw2 (List.not_mem_nil w)⟩
  | cons w0 rest =>
    unfold seedAllWallets
    rw [if_neg (by simp)]
    exact ⟨seedLoop_calls getEvents (w0 :: rest) ledger,
      seedLoop_dispatches getEvents (w0 :: rest) ledger,
      seedLoop_ledger_subset getEvents (w0 :: rest) ledger,
      fun w hw2 events hok e he hne =>
        seedLoop_mem getEvents (w0 :: rest) ledger w hw2 events hok e he hne⟩

theorem seedAllWallets_seeds_ledger_without_dispatch_witness :
    (seedAllWallets [walletW] getEventsW ∅).calls
        = [walletW].map (fun w => (w.AddressRaw, 5)) ∧
    (seedAllWallets [walletW] getEventsW ∅).dispatches = [] ∧
    (∅ : Finset (Int × String)) ⊆ (seedAllWallets [walletW] getEventsW ∅).ledger ∧
    ∀ w ∈ [walletW], ∀ events, getEventsW w.AddressRaw 5 = Except.ok events →
      ∀ e ∈ events, e.EventID ≠ "" →
        (w.ID, e.EventID) ∈ (seedAllWallets [walletW] getEventsW ∅).ledger :=
  seedAllWallets_seeds_ledger_without_dispatch [walletW] getEventsW ∅

/-- C10: RemoveWallet deletes every processed-event row keyed by the
removed wallet id, so no dedup entry for that wallet survives; and since
wallet ids are auto-increment (every ledger key is below nextId), a wallet
registered afterwards gets a fresh id with an empty dedup history. -/
theorem removeWallet_clears_processed_events (st : StorageState)
    (userID walletID : Int)
    (hinv : ∀ e ∈ st.processed, e.1 < st.nextId) :
    (∀ e ∈ (RemoveWallet st userID walletID).processed, e.1 ≠ walletID) ∧
    ∀ u2 name raw disp maxW now w st2,
      AddWallet (RemoveWallet st userID walletID) u2 name raw disp maxW now
        = Except.ok (w, st2) →
      ∀ e ∈ st2.processed, e.1 ≠ w.ID := by
  constructor
  · intro e he
    exact (Finset.mem_filter.mp he).2
  · intro u2 name raw disp maxW now w st2 hok e he
    simp only [AddWallet] at hok
    split at hok
    · exact absurd hok (by simp)
    · rw [Except.ok.injEq, Prod.mk.injEq] at hok
      obtain ⟨hw2, hst2⟩ := hok
      subst hw2
      subst hst2
      have he2 : e ∈ st.processed := by
        have : e ∈ (RemoveWallet st userID walletID).processed := he
        exact (Finset.mem_filter.mp this).1
      have hlt := hinv e he2
      simpa [RemoveWallet] using ne_of_lt hlt

theorem removeWallet_clears_processed_events_witness :
    (∀ e ∈ (RemoveWallet storageW 7 1).processed, e.1 ≠ 1) ∧
    ∀ u2 name raw disp maxW now w st2,
      AddWallet (RemoveWallet storageW 7 1) u2 name raw disp maxW now
        = Except.ok (w, st2) →
      ∀ e ∈ st2.processed, e.1 ≠ w.ID :=
  removeWallet_clears_processed_events storageW 7 1 (by decide)

end TonTracker
